import Mathlib

/-!
# Mini Leave Management System — verification of the core accounting rules

Shallow embedding of the core of `app.py`: the two tables (`employees`,
`leave_requests`) become lists of records, calendar dates become `Int`
(day ordinals; SQLite stores ISO strings whose lexicographic order agrees
with chronological order, and Python `date` subtraction yields day counts),
and each transactional operation becomes a pure function
`DB → args → Except LeaveError DB`.  The `with conn` context manager of
the source commits on success and rolls back on an exception, so a
function returning `Except.error` corresponds to a transaction that left
the store unchanged.

Request statuses are strings in the source (`'PENDING'`, `'APPROVED'`,
`'REJECTED'`, and `update_leave_status` accepts an arbitrary string); they
are embedded as `String`.
-/

/-- A row of the `employees` table. -/
structure Employee where
  id : Nat
  name : String
  email : String
  department : String
  joining_date : Int
  leave_balance : Int
deriving DecidableEq, Repr

/-- A row of the `leave_requests` table. -/
structure LeaveRequest where
  id : Nat
  employee_id : Nat
  start_date : Int
  end_date : Int
  reason : Option String
  status : String
deriving DecidableEq, Repr

/-- The whole store: the two tables plus the AUTOINCREMENT counters. -/
structure DB where
  employees : List Employee
  requests : List LeaveRequest
  nextEmpId : Nat
  nextReqId : Nat
deriving DecidableEq, Repr

/-- The freshly initialised store (`init_db`): empty tables, AUTOINCREMENT
counters at 1. -/
def dbInit : DB := ⟨[], [], 1, 1⟩

/-- The distinct failure modes raised as `ValueError`/`IntegrityError` by the
source, one constructor per distinct message (§7 of the spec merges the two
insufficient-balance messages into one kind; `missingEmployeeRow` stands for
the `TypeError` crash of `update_leave_status` when the request's employee
row is absent — impossible under the foreign key, and like any exception it
rolls the transaction back). -/
inductive LeaveError
  | duplicateEmail
  | notFound
  | invalidRange
  | beforeJoining
  | overlapping
  | invalidDuration
  | insufficientBalance
  | notPending
  | missingEmployeeRow
deriving DecidableEq, Repr

instance {ε α : Type} [DecidableEq ε] [DecidableEq α] : DecidableEq (Except ε α) := fun a b =>
  match a, b with
  | .error e, .error f => decidable_of_iff (e = f) (by simp)
  | .error _, .ok _ => isFalse (fun h => Except.noConfusion h)
  | .ok _, .error _ => isFalse (fun h => Except.noConfusion h)
  | .ok x, .ok y => decidable_of_iff (x = y) (by simp)

/-- `days_inclusive` from the source: `(end - start).days + 1`. -/
def days_inclusive (sd ed : Int) : Int := ed - sd + 1

/-- `SELECT * FROM employees WHERE id = ? ... fetchone()`: first row with the
given id. -/
def get_employee (db : DB) (emp_id : Nat) : Option Employee :=
  db.employees.find? (fun e => e.id == emp_id)

/-- `SELECT * FROM leave_requests WHERE id = ? ... fetchone()`: first row with
the given id. -/
def get_request (db : DB) (leave_id : Nat) : Option LeaveRequest :=
  db.requests.find? (fun r => r.id == leave_id)

/-- The `status IN ('PENDING','APPROVED')` test of `has_overlap`. -/
def activeStatus (s : String) : Bool := s == "PENDING" || s == "APPROVED"

/-- `has_overlap` from the source: some request of this employee with status
in `{PENDING, APPROVED}` satisfies `start_date <= end_date' AND
end_date >= start_date'` (inclusive-inclusive intersection). -/
def has_overlap (db : DB) (employee_id : Nat) (start_date end_date : Int) : Bool :=
  db.requests.any (fun r =>
    r.employee_id == employee_id && activeStatus r.status &&
    decide (r.start_date ≤ end_date) && decide (start_date ≤ r.end_date))

/-- `add_employee` from the source: a plain INSERT; the UNIQUE constraint on
`email` raises `IntegrityError` on a duplicate, otherwise the row is inserted
with the next AUTOINCREMENT id.  No constraint restricts `leave_balance`. -/
def add_employee (db : DB) (name email department : String)
    (joining_date leave_balance : Int) : Except LeaveError DB :=
  if db.employees.any (fun e => e.email == email) then
    .error .duplicateEmail
  else
    .ok { db with
      employees := db.employees ++
        [⟨db.nextEmpId, name, email, department, joining_date, leave_balance⟩],
      nextEmpId := db.nextEmpId + 1 }

/-- `apply_leave` from the source, checks in source order: employee exists,
`end_date < start_date`, `start_date < joining_date`, overlap, `req_days <= 0`,
`req_days > balance`; on success one new `PENDING` row is inserted. -/
def apply_leave (db : DB) (employee_id : Nat) (start_date end_date : Int)
    (reason : Option String) : Except LeaveError DB :=
  match get_employee db employee_id with
  | none => .error .notFound
  | some emp =>
    if end_date < start_date then .error .invalidRange
    else if start_date < emp.joining_date then .error .beforeJoining
    else if has_overlap db employee_id start_date end_date then .error .overlapping
    else
      if days_inclusive start_date end_date ≤ 0 then .error .invalidDuration
      else if days_inclusive start_date end_date > emp.leave_balance then
        .error .insufficientBalance
      else .ok { db with
        requests := db.requests ++
          [⟨db.nextReqId, employee_id, start_date, end_date, reason, "PENDING"⟩],
        nextReqId := db.nextReqId + 1 }

/-- Effect of `UPDATE leave_requests SET status = ? WHERE id = ?` on one row. -/
def setStatusRow (leave_id : Nat) (new_status : String) (r : LeaveRequest) : LeaveRequest :=
  if r.id == leave_id then { r with status := new_status } else r

/-- `UPDATE leave_requests SET status = ? WHERE id = ?`: every row whose id
matches gets the new status. -/
def setStatus (requests : List LeaveRequest) (leave_id : Nat)
    (new_status : String) : List LeaveRequest :=
  requests.map (setStatusRow leave_id new_status)

/-- Effect of `UPDATE employees SET leave_balance = leave_balance - ? WHERE
id = ?` on one row. -/
def deductRow (employee_id : Nat) (needed : Int) (e : Employee) : Employee :=
  if e.id == employee_id then { e with leave_balance := e.leave_balance - needed } else e

/-- `UPDATE employees SET leave_balance = leave_balance - ? WHERE id = ?`. -/
def deductBalance (employees : List Employee) (employee_id : Nat)
    (needed : Int) : List Employee :=
  employees.map (deductRow employee_id needed)

/-- `update_leave_status` from the source: the request must exist and be
`PENDING`; if the new status is exactly `"APPROVED"` the employee's balance is
re-checked and decremented by the inclusive span; any other string (the UI
only ever passes `"APPROVED"` or `"REJECTED"`) is written to the row without
touching any balance. -/
def update_leave_status (db : DB) (leave_id : Nat) (new_status : String) :
    Except LeaveError DB :=
  match get_request db leave_id with
  | none => .error .notFound
  | some row =>
    if row.status ≠ "PENDING" then .error .notPending
    else if new_status == "APPROVED" then
      match get_employee db row.employee_id with
      | none => .error .missingEmployeeRow
      | some emp =>
        if days_inclusive row.start_date row.end_date > emp.leave_balance then
          .error .insufficientBalance
        else .ok { db with
          employees := deductBalance db.employees row.employee_id
            (days_inclusive row.start_date row.end_date),
          requests := setStatus db.requests leave_id new_status }
    else
      .ok { db with requests := setStatus db.requests leave_id new_status }

/-- The state the `with conn` transaction leaves behind: the new state on
commit, the original state on rollback (any raised exception). -/
def committed (db : DB) (r : Except LeaveError DB) : DB :=
  match r with
  | .ok db' => db'
  | .error _ => db

/-- ASCII lowercasing: `A`–`Z` fold to `a`–`z`, every other character is
unchanged.  This is exactly SQLite's `LOWER` (applied by the source to the
`name` and `email` columns, which may hold arbitrary text).  Python's
`str.lower` — applied by the source to the filter string — is Unicode-aware
and agrees with this function only on ASCII strings; the listing theorem
therefore quantifies only over ASCII filter strings, where the two coincide
character for character. -/
def lowerChar (c : Char) : Char :=
  match c with
  | 'A' => 'a' | 'B' => 'b' | 'C' => 'c' | 'D' => 'd' | 'E' => 'e' | 'F' => 'f'
  | 'G' => 'g' | 'H' => 'h' | 'I' => 'i' | 'J' => 'j' | 'K' => 'k' | 'L' => 'l'
  | 'M' => 'm' | 'N' => 'n' | 'O' => 'o' | 'P' => 'p' | 'Q' => 'q' | 'R' => 'r'
  | 'S' => 's' | 'T' => 't' | 'U' => 'u' | 'V' => 'v' | 'W' => 'w' | 'X' => 'x'
  | 'Y' => 'y' | 'Z' => 'z'
  | c => c

/-- A string lowercased character by character. -/
def lowerStr (s : String) : List Char := s.data.map lowerChar

/-- All suffixes of a string, longest first (the last one is `[]`). -/
def tailsL : List Char → List (List Char)
  | [] => [[]]
  | c :: s => (c :: s) :: tailsL s

/-- SQLite `LIKE` on already-`LOWER`ed operands: `%` matches any character
sequence (some suffix of the text matches the rest of the pattern), `_`
matches any single character, any other pattern character matches itself.
(`LIKE`'s own ASCII case folding only affects `A`–`Z`, and the source applies
`LOWER` to both operands first, so no `A`–`Z` remains and plain equality is
the exact comparison.) -/
def likeMatch : List Char → List Char → Bool
  | [], s => s.isEmpty
  | p :: ps, s =>
    if p = '%' then (tailsL s).any (fun t => likeMatch ps t)
    else
      match s with
      | [] => false
      | c :: s' => (p == '_' || p == c) && likeMatch ps s'

/-- `needle` is a prefix of `hay` (plain character equality). -/
def isPrefixB : List Char → List Char → Bool
  | [], _ => true
  | _ :: _, [] => false
  | a :: as, b :: bs => a == b && isPrefixB as bs

/-- `needle` occurs contiguously somewhere in `hay`. -/
def containsSeq : List Char → List Char → Bool
  | n, [] => isPrefixB n []
  | n, c :: s => isPrefixB n (c :: s) || containsSeq n s

/-- The filter tested by `list_employees`:
`LOWER(name) LIKE '%q%' OR LOWER(email) LIKE '%q%'` with `q` lowercased by
the Python caller via `str.lower()`.  The caller's lowering is embedded as
`lowerStr`, which matches `str.lower()` exactly when `q` is ASCII; for
non-ASCII `q` Python's Unicode folding (e.g. `'Σ'` → `'σ'`) has no
counterpart here, so every statement about this filter carries an
ASCII-filter hypothesis (`allAscii`). -/
def empMatches (q : String) (e : Employee) : Bool :=
  likeMatch ('%' :: (lowerStr q ++ ['%'])) (lowerStr e.name) ||
  likeMatch ('%' :: (lowerStr q ++ ['%'])) (lowerStr e.email)

/-- The relation of `ORDER BY id DESC`. -/
def idGE (a b : Employee) : Prop := b.id ≤ a.id

instance : DecidableRel idGE := fun a b => Nat.decLe b.id a.id

instance : IsTotal Employee idGE := ⟨fun a b => Nat.le_total b.id a.id⟩

instance : IsTrans Employee idGE := ⟨fun _ _ _ h1 h2 => Nat.le_trans h2 h1⟩

/-- `list_employees` from the source: when the filter string is present and
non-empty (Python's `if q:`), keep the rows matching `empMatches`, otherwise
keep all rows; either way return them `ORDER BY id DESC` (embedded as a
stable sort under `idGE`).  A pure read: the store is not modified. -/
def list_employees (db : DB) (q : Option String) : List Employee :=
  match q with
  | some qs =>
    if qs ≠ "" then List.insertionSort idGE (db.employees.filter (empMatches qs))
    else List.insertionSort idGE db.employees
  | none => List.insertionSort idGE db.employees

/-- Spec-side predicate, from the amended claim's words: the employee's name
or email contains `q` as an ASCII-case-insensitive substring (both sides
folded with the ASCII `lowerChar`; the program offers no Unicode case
equivalence — SQLite's `LOWER` and `LIKE` fold only `A`–`Z` — so ASCII case
is the only case-insensitivity the amended claim ascribes to it). -/
def matchesCI (q : String) (e : Employee) : Bool :=
  containsSeq (lowerStr q) (lowerStr e.name) ||
  containsSeq (lowerStr q) (lowerStr e.email)

/-- `q` contains no SQLite `LIKE` wildcard character. -/
def noWild (p : List Char) : Bool := p.all (fun c => c != '%' && c != '_')

/-- Every character is ASCII.  On such strings Python's `str.lower()` and
the ASCII `lowerChar` fold identically, so the embedding of the filter
lowering is exact. -/
def allAscii (p : List Char) : Bool := p.all (fun c => c.toNat < 128)

/-- The states reachable from a fresh store by committed core operations,
with arbitrary arguments (exactly the arguments the Python functions
accept). -/
inductive Reachable : DB → Prop
  | init : Reachable dbInit
  | register (db db' : DB) (name email department : String) (jd bal : Int) :
      Reachable db → add_employee db name email department jd bal = .ok db' →
      Reachable db'
  | submit (db db' : DB) (eid : Nat) (sd ed : Int) (reason : Option String) :
      Reachable db → apply_leave db eid sd ed reason = .ok db' → Reachable db'
  | decideReq (db db' : DB) (lid : Nat) (st : String) :
      Reachable db → update_leave_status db lid st = .ok db' → Reachable db'

/-- Reachability as above, but with every registration passing a nonnegative
initial balance (as the UI form, which clamps the field to `min_value=0`,
always does). -/
inductive ReachableNN : DB → Prop
  | init : ReachableNN dbInit
  | register (db db' : DB) (name email department : String) (jd bal : Int) :
      ReachableNN db → 0 ≤ bal → add_employee db name email department jd bal = .ok db' →
      ReachableNN db'
  | submit (db db' : DB) (eid : Nat) (sd ed : Int) (reason : Option String) :
      ReachableNN db → apply_leave db eid sd ed reason = .ok db' → ReachableNN db'
  | decideReq (db db' : DB) (lid : Nat) (st : String) :
      ReachableNN db → update_leave_status db lid st = .ok db' → ReachableNN db'

/-- Every employee's balance is nonnegative (the C1 invariant). -/
def balancesNonneg (db : DB) : Prop := ∀ e ∈ db.employees, 0 ≤ e.leave_balance

/-- Inclusive-inclusive intersection of two requests' date ranges (the
overlap relation of the claim and of `has_overlap`). -/
def overlaps (a b : LeaveRequest) : Prop :=
  a.start_date ≤ b.end_date ∧ b.start_date ≤ a.end_date

/-- The C3 invariant: any two distinct requests of one employee that are both
`PENDING` or `APPROVED` have disjoint date ranges. -/
def OverlapFree (db : DB) : Prop :=
  db.requests.Pairwise (fun a b =>
    a.employee_id = b.employee_id → activeStatus a.status = true →
    activeStatus b.status = true → ¬ overlaps a b)

/-- Employee ids are below the AUTOINCREMENT counter and pairwise distinct. -/
def EmpIdsOK (db : DB) : Prop :=
  (∀ e ∈ db.employees, e.id < db.nextEmpId) ∧
  db.employees.Pairwise (fun a b => a.id ≠ b.id)

/-- Request ids are below the AUTOINCREMENT counter and pairwise distinct. -/
def ReqIdsOK (db : DB) : Prop :=
  (∀ r ∈ db.requests, r.id < db.nextReqId) ∧
  db.requests.Pairwise (fun a b => a.id ≠ b.id)

/-! ## Basic lemmas about the embedded operations -/

theorem setStatusRow_id (lid : Nat) (st : String) (r : LeaveRequest) :
    (setStatusRow lid st r).id = r.id := by
  unfold setStatusRow; split <;> rfl

theorem setStatusRow_employee_id (lid : Nat) (st : String) (r : LeaveRequest) :
    (setStatusRow lid st r).employee_id = r.employee_id := by
  unfold setStatusRow; split <;> rfl

theorem setStatusRow_start_date (lid : Nat) (st : String) (r : LeaveRequest) :
    (setStatusRow lid st r).start_date = r.start_date := by
  unfold setStatusRow; split <;> rfl

theorem setStatusRow_end_date (lid : Nat) (st : String) (r : LeaveRequest) :
    (setStatusRow lid st r).end_date = r.end_date := by
  unfold setStatusRow; split <;> rfl

theorem setStatusRow_status (lid : Nat) (st : String) (r : LeaveRequest) :
    (setStatusRow lid st r).status = if r.id = lid then st else r.status := by
  unfold setStatusRow
  by_cases h : r.id = lid <;> simp [h]

theorem deductRow_id (i : Nat) (n : Int) (e : Employee) :
    (deductRow i n e).id = e.id := by
  unfold deductRow; split <;> rfl

theorem deductRow_balance (i : Nat) (n : Int) (e : Employee) :
    (deductRow i n e).leave_balance =
      if e.id = i then e.leave_balance - n else e.leave_balance := by
  unfold deductRow
  by_cases h : e.id = i <;> simp [h]

theorem get_employee_mem {db : DB} {i : Nat} {emp : Employee}
    (h : get_employee db i = some emp) : emp ∈ db.employees ∧ emp.id = i := by
  unfold get_employee at h
  exact ⟨List.mem_of_find?_eq_some h, by simpa using List.find?_some h⟩

theorem get_request_mem {db : DB} {i : Nat} {row : LeaveRequest}
    (h : get_request db i = some row) : row ∈ db.requests ∧ row.id = i := by
  unfold get_request at h
  exact ⟨List.mem_of_find?_eq_some h, by simpa using List.find?_some h⟩

theorem pairwise_key_inj {α : Type} {key : α → Nat} {l : List α}
    (hp : l.Pairwise (fun a b => key a ≠ key b)) {a b : α}
    (ha : a ∈ l) (hb : b ∈ l) (hk : key a = key b) : a = b := by
  induction l with
  | nil => cases ha
  | cons x xs ih =>
    rcases List.pairwise_cons.mp hp with ⟨hx, hxs⟩
    rcases List.mem_cons.mp ha with ha' | ha' <;> rcases List.mem_cons.mp hb with hb' | hb'
    · rw [ha', hb']
    · exact absurd hk (ha' ▸ hx b hb')
    · exact absurd hk.symm (hb' ▸ hx a ha')
    · exact ih hxs ha' hb'

theorem add_employee_ok {db db' : DB} {n em dep : String} {jd bal : Int}
    (h : add_employee db n em dep jd bal = .ok db') :
    db'.employees = db.employees ++ [⟨db.nextEmpId, n, em, dep, jd, bal⟩] ∧
    db'.requests = db.requests ∧ db'.nextEmpId = db.nextEmpId + 1 ∧
    db'.nextReqId = db.nextReqId := by
  unfold add_employee at h
  split at h
  · exact absurd h (by simp)
  · cases h
    exact ⟨rfl, rfl, rfl, rfl⟩

theorem apply_leave_ok {db db' : DB} {eid : Nat} {sd ed : Int} {r : Option String}
    (h : apply_leave db eid sd ed r = .ok db') :
    db'.employees = db.employees ∧ db'.nextEmpId = db.nextEmpId ∧
    db'.requests = db.requests ++ [⟨db.nextReqId, eid, sd, ed, r, "PENDING"⟩] ∧
    db'.nextReqId = db.nextReqId + 1 ∧
    has_overlap db eid sd ed = false := by
  unfold apply_leave at h
  split at h
  · exact absurd h (by simp)
  · split at h
    · exact absurd h (by simp)
    · split at h
      · exact absurd h (by simp)
      · split at h
        · exact absurd h (by simp)
        next hov =>
          split at h
          · exact absurd h (by simp)
          · split at h
            · exact absurd h (by simp)
            · cases h
              exact ⟨rfl, rfl, rfl, rfl, by simpa using hov⟩

theorem update_leave_status_ok {db db' : DB} {lid : Nat} {st : String}
    (h : update_leave_status db lid st = .ok db') :
    ∃ row, get_request db lid = some row ∧ row.status = "PENDING" ∧
      db'.requests = setStatus db.requests lid st ∧
      db'.nextEmpId = db.nextEmpId ∧ db'.nextReqId = db.nextReqId ∧
      (db'.employees = db.employees ∨
        ∃ emp, get_employee db row.employee_id = some emp ∧
          days_inclusive row.start_date row.end_date ≤ emp.leave_balance ∧
          db'.employees = deductBalance db.employees row.employee_id
            (days_inclusive row.start_date row.end_date)) := by
  unfold update_leave_status at h
  split at h
  · exact absurd h (by simp)
  next row hrow =>
    split at h
    · exact absurd h (by simp)
    next hpend =>
      split at h
      · split at h
        · exact absurd h (by simp)
        next emp hemp =>
          split at h
          · exact absurd h (by simp)
          next hbal =>
            cases h
            exact ⟨row, hrow, not_ne_iff.mp hpend, rfl, rfl, rfl,
              .inr ⟨emp, hemp, le_of_not_lt hbal, rfl⟩⟩
      · cases h
        exact ⟨row, hrow, not_ne_iff.mp hpend, rfl, rfl, rfl, .inl rfl⟩

theorem update_approve_eq {db : DB} {lid : Nat} {row : LeaveRequest} {emp : Employee}
    (hrow : get_request db lid = some row) (hpend : row.status = "PENDING")
    (hemp : get_employee db row.employee_id = some emp)
    (hbal : days_inclusive row.start_date row.end_date ≤ emp.leave_balance) :
    update_leave_status db lid "APPROVED" = .ok { db with
      employees := deductBalance db.employees row.employee_id
        (days_inclusive row.start_date row.end_date),
      requests := setStatus db.requests lid "APPROVED" } := by
  unfold update_leave_status
  rw [hrow]
  simp only [hpend, hemp, ne_eq, not_true_eq_false, if_false, beq_self_eq_true, if_true]
  rw [if_neg (not_lt.mpr hbal)]

theorem update_other_eq {db : DB} {lid : Nat} {row : LeaveRequest} {st : String}
    (hrow : get_request db lid = some row) (hpend : row.status = "PENDING")
    (hst : st ≠ "APPROVED") :
    update_leave_status db lid st =
      .ok { db with requests := setStatus db.requests lid st } := by
  unfold update_leave_status
  rw [hrow]
  simp only [hpend, ne_eq, not_true_eq_false, if_false]
  rw [if_neg (by simpa using hst)]

theorem update_notPending_eq {db : DB} {lid : Nat} {row : LeaveRequest} (st : String)
    (hrow : get_request db lid = some row) (hnp : row.status ≠ "PENDING") :
    update_leave_status db lid st = .error .notPending := by
  unfold update_leave_status
  rw [hrow]
  simp only [ne_eq, hnp, not_false_eq_true, if_true]

/-- The specification's description of `submitLeaveRequest` (§4.1): the five
preconditions in their stated order, each failing fast with its own error
kind, and on success one new `PENDING` row with no balance deduction. -/
def submitLeaveRequestSpec (db : DB) (employeeId : Nat) (startDate endDate : Int)
    (reason : Option String) : Except LeaveError DB :=
  match get_employee db employeeId with
  | none => .error .notFound
  | some emp =>
    if endDate < startDate then .error .invalidRange
    else if startDate < emp.joining_date then .error .beforeJoining
    else if has_overlap db employeeId startDate endDate then .error .overlapping
    else if days_inclusive startDate endDate > emp.leave_balance then
      .error .insufficientBalance
    else .ok { db with
      requests := db.requests ++
        [⟨db.nextReqId, employeeId, startDate, endDate, reason, "PENDING"⟩],
      nextReqId := db.nextReqId + 1 }

theorem apply_leave_eq_spec (db : DB) (eid : Nat) (sd ed : Int) (r : Option String) :
    apply_leave db eid sd ed r = submitLeaveRequestSpec db eid sd ed r := by
  unfold apply_leave submitLeaveRequestSpec
  cases get_employee db eid with
  | none => rfl
  | some emp =>
    dsimp only
    split
    · rfl
    next h1 =>
      split
      · rfl
      · split
        · rfl
        · rw [if_neg (by unfold days_inclusive; omega)]

/-! ## Reachability invariants -/

theorem reachableNN_reachable {db : DB} (h : ReachableNN db) : Reachable db := by
  induction h with
  | init => exact .init
  | register db db' n em dep jd bal hr hb hop ih => exact .register db db' n em dep jd bal ih hop
  | submit db db' eid sd ed r hr hop ih => exact .submit db db' eid sd ed r ih hop
  | decideReq db db' lid st hr hop ih => exact .decideReq db db' lid st ih hop

theorem reachable_ids {db : DB} (h : Reachable db) : EmpIdsOK db ∧ ReqIdsOK db := by
  induction h with
  | init => refine ⟨⟨?_, ?_⟩, ⟨?_, ?_⟩⟩ <;> simp [dbInit]
  | register db db' n em dep jd bal hr hop ih =>
    obtain ⟨hE, hR, hNE, hNR⟩ := add_employee_ok hop
    obtain ⟨⟨hb1, hp1⟩, hq⟩ := ih
    refine ⟨⟨?_, ?_⟩, ?_⟩
    · intro e he
      rw [hE] at he; rw [hNE]
      rcases List.mem_append.mp he with h1 | h1
      · exact Nat.lt_succ_of_lt (hb1 e h1)
      · rw [List.mem_singleton.mp h1]; exact Nat.lt_succ_self _
    · rw [hE]
      refine List.pairwise_append.mpr ⟨hp1, by simp, ?_⟩
      intro a ha b hb
      rw [List.mem_singleton.mp hb]
      exact Nat.ne_of_lt (hb1 a ha)
    · unfold ReqIdsOK
      rw [hR, hNR]
      exact hq
  | submit db db' eid sd ed r hr hop ih =>
    obtain ⟨hE, hNE, hReq, hNR, _⟩ := apply_leave_ok hop
    obtain ⟨hp, ⟨hb1, hp1⟩⟩ := ih
    refine ⟨?_, ⟨?_, ?_⟩⟩
    · unfold EmpIdsOK
      rw [hE, hNE]
      exact hp
    · intro q hq
      rw [hReq] at hq; rw [hNR]
      rcases List.mem_append.mp hq with h1 | h1
      · exact Nat.lt_succ_of_lt (hb1 q h1)
      · rw [List.mem_singleton.mp h1]; exact Nat.lt_succ_self _
    · rw [hReq]
      refine List.pairwise_append.mpr ⟨hp1, by simp, ?_⟩
      intro a ha b hb
      rw [List.mem_singleton.mp hb]
      exact Nat.ne_of_lt (hb1 a ha)
  | decideReq db db' lid st hr hop ih =>
    obtain ⟨row, hrow, hpend, hreq, hne, hnr, hemp⟩ := update_leave_status_ok hop
    obtain ⟨⟨he1, he2⟩, ⟨hb2, hp2⟩⟩ := ih
    constructor
    · rcases hemp with hsame | ⟨emp, _, _, hded⟩
      · unfold EmpIdsOK
        rw [hsame, hne]
        exact ⟨he1, he2⟩
      · unfold EmpIdsOK
        rw [hded, hne]
        constructor
        · intro e' he'
          unfold deductBalance at he'
          rcases List.mem_map.mp he' with ⟨e, he, rfl⟩
          rw [deductRow_id]; exact he1 e he
        · unfold deductBalance
          rw [List.pairwise_map]
          exact he2.imp (fun {a b} hab => by simpa [deductRow_id] using hab)
    · constructor
      · intro r' hr'
        rw [hreq] at hr'; rw [hnr]
        unfold setStatus at hr'
        rcases List.mem_map.mp hr' with ⟨r, hrm, rfl⟩
        rw [setStatusRow_id]; exact hb2 r hrm
      · rw [hreq]
        unfold setStatus
        rw [List.pairwise_map]
        exact hp2.imp (fun {a b} hab => by simpa [setStatusRow_id] using hab)

theorem reachableNN_balances {db : DB} (h : ReachableNN db) : balancesNonneg db := by
  induction h with
  | init => intro e he; exact absurd he (by simp [dbInit])
  | register db db' n em dep jd bal hr hb hop ih =>
    obtain ⟨hE, _, _, _⟩ := add_employee_ok hop
    intro e he
    rw [hE] at he
    rcases List.mem_append.mp he with h1 | h1
    · exact ih e h1
    · rw [List.mem_singleton.mp h1]; exact hb
  | submit db db' eid sd ed r hr hop ih =>
    obtain ⟨hE, _, _, _, _⟩ := apply_leave_ok hop
    intro e he; rw [hE] at he; exact ih e he
  | decideReq db db' lid st hr hop ih =>
    obtain ⟨row, hrow, hpend, hreq, _, _, hemp⟩ := update_leave_status_ok hop
    rcases hemp with hsame | ⟨emp, hge, hbal, hded⟩
    · intro e he; rw [hsame] at he; exact ih e he
    · intro e' he'
      rw [hded] at he'
      unfold deductBalance at he'
      rcases List.mem_map.mp he' with ⟨e, he, rfl⟩
      rw [deductRow_balance]
      by_cases hid : e.id = row.employee_id
      · rw [if_pos hid]
        obtain ⟨hmem, hidemp⟩ := get_employee_mem hge
        have huniq := (reachable_ids (reachableNN_reachable hr)).1.2
        have heq : e = emp := pairwise_key_inj huniq he hmem (by rw [hid, hidemp])
        rw [heq]
        have := ih emp hmem
        omega
      · rw [if_neg hid]; exact ih e he

theorem reachable_overlapFree {db : DB} (h : Reachable db) : OverlapFree db := by
  induction h with
  | init => unfold OverlapFree; simp [dbInit]
  | register db db' n em dep jd bal hr hop ih =>
    obtain ⟨_, hR, _, _⟩ := add_employee_ok hop
    unfold OverlapFree at ih ⊢
    rw [hR]; exact ih
  | submit db db' eid sd ed r hr hop ih =>
    obtain ⟨_, _, hReq, _, hov⟩ := apply_leave_ok hop
    unfold OverlapFree at ih ⊢
    rw [hReq]
    refine List.pairwise_append.mpr ⟨ih, by simp, ?_⟩
    intro a ha b hb
    rw [List.mem_singleton.mp hb]
    intro heid hacta hactb hovl
    unfold has_overlap at hov
    rw [List.any_eq_false] at hov
    have hnot := hov a ha
    simp only [Bool.and_eq_true, beq_iff_eq, decide_eq_true_eq, not_and, and_imp] at hnot
    exact hnot heid hacta hovl.1 hovl.2
  | decideReq db db' lid st hr hop ih =>
    obtain ⟨row, hrow, hpend, hreq, _, _, _⟩ := update_leave_status_ok hop
    obtain ⟨hmem, hid⟩ := get_request_mem hrow
    have huniq := (reachable_ids hr).2.2
    unfold OverlapFree at ih ⊢
    rw [hreq]
    unfold setStatus
    rw [List.pairwise_map]
    have hstat : ∀ c ∈ db.requests,
        activeStatus (setStatusRow lid st c).status = true → activeStatus c.status = true := by
      intro c hc hact
      by_cases hcid : c.id = lid
      · have hceq : c = row := pairwise_key_inj huniq hc hmem (by rw [hcid, hid])
        rw [hceq, hpend]
        rfl
      · unfold setStatusRow at hact
        rw [if_neg (by simpa using hcid)] at hact
        exact hact
    refine ih.imp_of_mem ?_
    intro a b hma hmb hab heid hacta hactb hovl
    rw [setStatusRow_employee_id, setStatusRow_employee_id] at heid
    unfold overlaps at hovl
    rw [setStatusRow_start_date, setStatusRow_end_date, setStatusRow_start_date,
      setStatusRow_end_date] at hovl
    exact hab heid (hstat a hma hacta) (hstat b hmb hactb) hovl

/-! ## `LIKE` patterns versus plain substring search -/

theorem lowerChar_wild {c : Char} (h1 : c ≠ '%') (h2 : c ≠ '_') :
    lowerChar c ≠ '%' ∧ lowerChar c ≠ '_' := by
  unfold lowerChar
  split
  all_goals first
    | exact ⟨by decide, by decide⟩
    | exact ⟨h1, h2⟩

theorem noWild_lower {p : List Char} (hw : noWild p = true) :
    noWild (p.map lowerChar) = true := by
  unfold noWild at hw ⊢
  rw [List.all_eq_true] at hw ⊢
  intro c hc
  rcases List.mem_map.mp hc with ⟨d, hd, rfl⟩
  have hdw := hw d hd
  simp only [Bool.and_eq_true, bne_iff_ne, ne_eq] at hdw ⊢
  exact lowerChar_wild hdw.1 hdw.2

theorem containsSeq_nil (l : List Char) : containsSeq [] l = true := by
  cases l <;> simp [containsSeq, isPrefixB]

theorem tailsL_any_nil (s : List Char) : (tailsL s).any (fun t => t.isEmpty) = true := by
  induction s with
  | nil => rfl
  | cons c s ih => simp [tailsL, ih]

theorem likeMatch_append_percent {p : List Char} (hw : noWild p = true) :
    ∀ s, likeMatch (p ++ ['%']) s = isPrefixB p s := by
  induction p with
  | nil =>
    intro s
    show likeMatch ['%'] s = isPrefixB [] s
    simp only [likeMatch, if_pos rfl]
    rw [tailsL_any_nil]
    rfl
  | cons a p ih =>
    unfold noWild at hw
    simp only [List.all_cons, Bool.and_eq_true, bne_iff_ne, ne_eq] at hw
    have hw2 : noWild p = true := hw.2
    intro s
    cases s with
    | nil =>
      show likeMatch (a :: (p ++ ['%'])) [] = isPrefixB (a :: p) []
      simp only [likeMatch, if_neg hw.1.1, isPrefixB]
    | cons c s' =>
      show likeMatch (a :: (p ++ ['%'])) (c :: s') = isPrefixB (a :: p) (c :: s')
      simp only [likeMatch, if_neg hw.1.1, isPrefixB]
      rw [ih hw2 s', show (a == '_') = false from beq_eq_false_iff_ne.mpr hw.1.2]
      simp

theorem tailsL_any_prefix (n : List Char) (s : List Char) :
    (tailsL s).any (fun t => isPrefixB n t) = containsSeq n s := by
  induction s with
  | nil => simp [tailsL, containsSeq]
  | cons c s ih => simp [tailsL, containsSeq, ih]

theorem likeMatch_contains {p : List Char} (hw : noWild p = true) (s : List Char) :
    likeMatch ('%' :: (p ++ ['%'])) s = containsSeq p s := by
  have h1 : (fun t => likeMatch (p ++ ['%']) t) = (fun t => isPrefixB p t) :=
    funext (likeMatch_append_percent hw)
  simp only [likeMatch, if_true]
  rw [h1, tailsL_any_prefix]

theorem empMatches_eq_matchesCI {q : String} (hw : noWild q.data = true) (e : Employee) :
    empMatches q e = matchesCI q e := by
  unfold empMatches matchesCI lowerStr
  rw [likeMatch_contains (noWild_lower hw), likeMatch_contains (noWild_lower hw)]

theorem matchesCI_empty (e : Employee) : matchesCI "" e = true := by
  unfold matchesCI
  rw [show lowerStr "" = [] from rfl, containsSeq_nil]
  rfl

theorem list_employees_mem {db : DB} {q : String} (hw : noWild q.data = true)
    (e : Employee) :
    e ∈ list_employees db (some q) ↔ e ∈ db.employees ∧ matchesCI q e = true := by
  simp only [list_employees]
  by_cases hq : q = ""
  · subst hq
    rw [if_neg (by simp), List.mem_insertionSort]
    exact ⟨fun h => ⟨h, matchesCI_empty e⟩, fun h => h.1⟩
  · rw [if_pos hq, List.mem_insertionSort, List.mem_filter,
      empMatches_eq_matchesCI hw]

theorem list_employees_sorted (db : DB) (q : Option String) :
    (list_employees db q).Pairwise idGE := by
  cases q with
  | none => exact List.sorted_insertionSort idGE _
  | some qs =>
    simp only [list_employees]
    split
    · exact List.sorted_insertionSort idGE _
    · exact List.sorted_insertionSort idGE _

theorem list_employees_none_mem (db : DB) (e : Employee) :
    e ∈ list_employees db none ↔ e ∈ db.employees := by
  simp only [list_employees]
  exact List.mem_insertionSort idGE

/-- The property the C8 claim ascribes to `list_employees`: the result holds
exactly the employees satisfying `p`, ordered by descending id.  (In this
embedding the operation is a pure function of the store, so "modifies no
state" is inherent.) -/
def listsExactly (db : DB) (q : Option String) (p : Employee → Bool) : Prop :=
  (∀ e, e ∈ list_employees db q ↔ e ∈ db.employees ∧ p e = true) ∧
  (list_employees db q).Pairwise idGE

/-! ## Concrete states used as witnesses and counterexamples -/

/-- State reached by registering one employee with initial balance `-1`. -/
def dbC1 : DB := ⟨[⟨1, "Mallory", "mallory@corp.io", "Engineering", 0, -1⟩], [], 2, 1⟩

/-- State reached by registering one employee with initial balance `24`. -/
def dbW1 : DB := ⟨[⟨1, "Jane", "jane@corp.io", "Engineering", 0, 24⟩], [], 2, 1⟩

/-- One employee (balance 24) with one 5-day `PENDING` request. -/
def dbW2 : DB :=
  ⟨[⟨1, "Jane", "jane@corp.io", "Engineering", 0, 24⟩],
   [⟨1, 1, 10, 14, none, "PENDING"⟩], 2, 2⟩

/-- State reached by one registration followed by one leave submission. -/
def dbW3 : DB :=
  ⟨[⟨1, "Jane", "jane@corp.io", "Engineering", 0, 24⟩],
   [⟨1, 1, 5, 9, none, "PENDING"⟩], 2, 2⟩

/-- One employee, used to exercise the invalid-range error. -/
def dbW5 : DB := ⟨[⟨1, "Jane", "jane5@corp.io", "Engineering", 0, 24⟩], [], 2, 1⟩

/-- One employee with one already-`REJECTED` request. -/
def dbW6 : DB :=
  ⟨[⟨1, "Jane", "jane6@corp.io", "Engineering", 0, 24⟩],
   [⟨1, 1, 10, 14, none, "REJECTED"⟩], 2, 2⟩

/-- One employee with one `PENDING` request, to be rejected. -/
def dbW7 : DB :=
  ⟨[⟨1, "Jane", "jane7@corp.io", "Engineering", 0, 24⟩],
   [⟨1, 1, 10, 14, none, "PENDING"⟩], 2, 2⟩

/-- Two employees for the listing witness. -/
def dbW8 : DB :=
  ⟨[⟨1, "Jane Doe", "jane8@corp.io", "Engineering", 0, 24⟩,
    ⟨2, "Bob Mandel", "bob@corp.io", "Sales", 0, 24⟩], [], 3, 1⟩

/-- One employee whose name defeats the wildcard-free substring reading. -/
def dbC8 : DB := ⟨[⟨1, "abc", "abc@mail.com", "Engineering", 0, 24⟩], [], 2, 1⟩

/-- One employee with one `PENDING` request, to receive an arbitrary status. -/
def dbW10 : DB :=
  ⟨[⟨1, "Jane", "jane10@corp.io", "Engineering", 0, 24⟩],
   [⟨1, 1, 10, 14, none, "PENDING"⟩], 2, 2⟩

/-! ## The claims -/

/-- C1 (amended): provided every registration passes a nonnegative initial
balance — as the UI form, which clamps the field to a minimum of 0, always
does — every state reachable through the committed core operations has
`leave_balance ≥ 0` for every employee.  (As literally stated the claim is
false: `add_employee` itself accepts any integer, see the counterexample.) -/
theorem C1_balance_invariant (db : DB) (h : ReachableNN db) : balancesNonneg db :=
  reachableNN_balances h

/-- C1 counterexample: registering an employee with `initialBalance = -1` is a
committed core operation whose resulting reachable state contains a negative
`leave_balance`, refuting the claim "regardless of the initialBalance
argument". -/
theorem C1_counterexample : Reachable dbC1 ∧ ¬ balancesNonneg dbC1 :=
  ⟨Reachable.register dbInit dbC1 "Mallory" "mallory@corp.io" "Engineering" 0 (-1)
      Reachable.init (by decide),
   by unfold balancesNonneg; decide⟩

/-- C1 witness: the amended invariant evaluated on a concrete reachable
state. -/
theorem C1_balance_invariant_witness : balancesNonneg dbW1 :=
  C1_balance_invariant dbW1
    (ReachableNN.register dbInit dbW1 "Jane" "jane@corp.io" "Engineering" 0 24
      ReachableNN.init (by decide) (by decide))

/-- C2: approving a `PENDING` request whose inclusive span fits in the owning
employee's current balance deducts exactly the span from that employee and
marks the request `APPROVED`; and any failing approval call commits nothing
(the transaction rolls back, leaving balances and statuses unchanged). -/
theorem C2_approval_exact (db : DB) (lid : Nat) (row : LeaveRequest) (emp : Employee)
    (hrow : get_request db lid = some row) (hpend : row.status = "PENDING")
    (hemp : get_employee db row.employee_id = some emp)
    (hbal : days_inclusive row.start_date row.end_date ≤ emp.leave_balance) :
    update_leave_status db lid "APPROVED" = .ok { db with
      employees := deductBalance db.employees row.employee_id
        (days_inclusive row.start_date row.end_date),
      requests := setStatus db.requests lid "APPROVED" } ∧
    (∀ (db₂ : DB) (lid₂ : Nat) (err : LeaveError),
      update_leave_status db₂ lid₂ "APPROVED" = .error err →
      committed db₂ (update_leave_status db₂ lid₂ "APPROVED") = db₂) :=
  ⟨update_approve_eq hrow hpend hemp hbal,
   fun db₂ lid₂ _ herr => by unfold committed; rw [herr]⟩

/-- C2 witness: approving the 5-day pending request of `dbW2`. -/
theorem C2_approval_exact_witness :
    update_leave_status dbW2 1 "APPROVED" = .ok { dbW2 with
      employees := deductBalance dbW2.employees 1 (days_inclusive 10 14),
      requests := setStatus dbW2.requests 1 "APPROVED" } ∧
    (∀ (db₂ : DB) (lid₂ : Nat) (err : LeaveError),
      update_leave_status db₂ lid₂ "APPROVED" = .error err →
      committed db₂ (update_leave_status db₂ lid₂ "APPROVED") = db₂) :=
  C2_approval_exact dbW2 1 ⟨1, 1, 10, 14, none, "PENDING"⟩
    ⟨1, "Jane", "jane@corp.io", "Engineering", 0, 24⟩
    (by decide) (by decide) (by decide) (by decide)

/-- C3: in every reachable state, the `PENDING`/`APPROVED` requests of each
employee are pairwise non-overlapping under inclusive date bounds; the
invariant is established by induction over all four operations, so it is
preserved by submission and by both decision outcomes. -/
theorem C3_overlap_invariant (db : DB) (h : Reachable db) : OverlapFree db :=
  reachable_overlapFree h

/-- C3 witness: the invariant evaluated on the concrete reachable state with
one employee and one submitted request. -/
theorem C3_overlap_invariant_witness : OverlapFree dbW3 :=
  C3_overlap_invariant dbW3
    (Reachable.submit ⟨[⟨1, "Jane", "jane@corp.io", "Engineering", 0, 24⟩], [], 2, 1⟩
      dbW3 1 5 9 none
      (Reachable.register dbInit ⟨[⟨1, "Jane", "jane@corp.io", "Engineering", 0, 24⟩], [], 2, 1⟩
        "Jane" "jane@corp.io" "Engineering" 0 24 Reachable.init (by decide))
      (by decide))

/-- C4: `apply_leave` equals, on every input, the specification's ordered
five-check description `submitLeaveRequestSpec`: employee existence, date
range, joining date, overlap, then balance, first failure determining the
error; on success exactly one new `PENDING` row is inserted and no balance is
deducted. -/
theorem C4_submit_check_order (db : DB) (eid : Nat) (sd ed : Int) (r : Option String) :
    apply_leave db eid sd ed r = submitLeaveRequestSpec db eid sd ed r :=
  apply_leave_eq_spec db eid sd ed r

/-- C5 (amended): provided the employee exists, a submission with
`endDate < startDate` fails with `InvalidRange` regardless of all other
state.  (As literally stated the claim is false: when the employee does not
exist the existence check fires first, see the counterexample.) -/
theorem C5_invalid_range (db : DB) (eid : Nat) (sd ed : Int) (r : Option String)
    (emp : Employee) (hemp : get_employee db eid = some emp) (hlt : ed < sd) :
    apply_leave db eid sd ed r = .error .invalidRange := by
  simp only [apply_leave, hemp]
  rw [if_pos hlt]

/-- C5 counterexample: with no employees, a submission with `end < start`
fails with `NotFound`, not `InvalidRange`. -/
theorem C5_counterexample :
    (0 : Int) < 1 ∧ apply_leave dbInit 1 1 0 none = .error .notFound ∧
    apply_leave dbInit 1 1 0 none ≠ .error .invalidRange := by
  decide

/-- C5 witness: the amended statement on a concrete store. -/
theorem C5_invalid_range_witness : apply_leave dbW5 1 5 4 none = .error .invalidRange :=
  C5_invalid_range dbW5 1 5 4 none ⟨1, "Jane", "jane5@corp.io", "Engineering", 0, 24⟩
    (by decide) (by decide)

/-- C6: deciding a request whose status is not `PENDING` fails with
`NotPending` for every decision string, and the transaction commits
nothing. -/
theorem C6_decide_nonpending (db : DB) (lid : Nat) (row : LeaveRequest) (st : String)
    (hrow : get_request db lid = some row) (hnp : row.status ≠ "PENDING") :
    update_leave_status db lid st = .error .notPending ∧
    committed db (update_leave_status db lid st) = db := by
  have h := update_notPending_eq st hrow hnp
  exact ⟨h, by unfold committed; rw [h]⟩

/-- C6 witness: re-deciding the already-rejected request of `dbW6`. -/
theorem C6_decide_nonpending_witness :
    update_leave_status dbW6 1 "APPROVED" = .error .notPending ∧
    committed dbW6 (update_leave_status dbW6 1 "APPROVED") = dbW6 :=
  C6_decide_nonpending dbW6 1 ⟨1, 1, 10, 14, none, "REJECTED"⟩ "APPROVED"
    (by decide) (by decide)

/-- C7: rejecting a `PENDING` request only rewrites that request's status to
`REJECTED` (`setStatus` touches exactly the rows with the given id); the
employees table — balances included — is left untouched. -/
theorem C7_reject_effect (db : DB) (lid : Nat) (row : LeaveRequest)
    (hrow : get_request db lid = some row) (hpend : row.status = "PENDING") :
    update_leave_status db lid "REJECTED" =
      .ok { db with requests := setStatus db.requests lid "REJECTED" } :=
  update_other_eq hrow hpend (by decide)

/-- C7 witness: rejecting the pending request of `dbW7`. -/
theorem C7_reject_effect_witness :
    update_leave_status dbW7 1 "REJECTED" =
      .ok { dbW7 with requests := setStatus dbW7.requests 1 "REJECTED" } :=
  C7_reject_effect dbW7 1 ⟨1, 1, 10, 14, none, "PENDING"⟩ (by decide) (by decide)

/-- C8 (amended): for every store and every ASCII filter string without the
SQLite `LIKE` wildcards `%` and `_`, `list_employees` returns exactly the
employees whose name or email contains the filter as an
ASCII-case-insensitive substring, ordered by descending id, and returns all
employees (same order) when the filter is absent; it is a pure read.  (As
literally stated the claim is false: the filter is passed to `LIKE`
unescaped, so wildcard characters in it match more than their literal
occurrence — see the counterexample; and for non-ASCII filters the program
lowercases the filter with Python's Unicode `str.lower()` but the columns
with SQLite's ASCII-only `LOWER`, so its matching is neither Unicode- nor
consistently case-insensitive there.  The ASCII hypothesis delimits the
domain on which the embedded filter lowering coincides exactly with the
program's.) -/
theorem C8_list_employees (db : DB) (q : String) (ha : allAscii q.data = true)
    (hw : noWild q.data = true) :
    listsExactly db (some q) (matchesCI q) ∧ listsExactly db none (fun _ => true) :=
  ⟨⟨fun e => list_employees_mem hw e, list_employees_sorted db (some q)⟩,
   ⟨fun e => by rw [list_employees_none_mem db e]; simp, list_employees_sorted db none⟩⟩

/-- C8 counterexample: filtering by `"a_c"` returns the employee named
`"abc"`, although `"a_c"` is not a case-insensitive substring of the name or
the email. -/
theorem C8_counterexample :
    (⟨1, "abc", "abc@mail.com", "Engineering", 0, 24⟩ : Employee) ∈
      list_employees dbC8 (some "a_c") ∧
    matchesCI "a_c" ⟨1, "abc", "abc@mail.com", "Engineering", 0, 24⟩ = false := by
  decide

/-- C8 witness: the amended statement on a concrete two-employee store with
the ASCII, wildcard-free filter `"an"`. -/
theorem C8_list_employees_witness :
    listsExactly dbW8 (some "an") (matchesCI "an") ∧
    listsExactly dbW8 none (fun _ => true) :=
  C8_list_employees dbW8 "an" (by decide) (by decide)

/-- C9: the `Invalid duration` branch of `apply_leave` is dead code — no
input whatsoever makes `apply_leave` return that error, because the earlier
invalid-range check forces an inclusive day count of at least 1. -/
theorem C9_invalid_duration_unreachable (db : DB) (eid : Nat) (sd ed : Int)
    (r : Option String) : apply_leave db eid sd ed r ≠ .error .invalidDuration := by
  rw [apply_leave_eq_spec]
  unfold submitLeaveRequestSpec
  split
  · decide
  · split
    · decide
    · split
      · decide
      · split
        · decide
        · split
          · decide
          · exact fun h => Except.noConfusion h

/-- C10: `update_leave_status` does not restrict the decision string: for a
`PENDING` request, any status other than `"APPROVED"` is written verbatim to
the request row, succeeding with no balance check and no balance change. -/
theorem C10_arbitrary_status (db : DB) (lid : Nat) (row : LeaveRequest) (st : String)
    (hrow : get_request db lid = some row) (hpend : row.status = "PENDING")
    (hst : st ≠ "APPROVED") :
    update_leave_status db lid st =
      .ok { db with requests := setStatus db.requests lid st } :=
  update_other_eq hrow hpend hst

/-- C10 witness: writing the arbitrary status string `"WITHDRAWN"` to the
pending request of `dbW10`. -/
theorem C10_arbitrary_status_witness :
    update_leave_status dbW10 1 "WITHDRAWN" =
      .ok { dbW10 with requests := setStatus dbW10.requests 1 "WITHDRAWN" } :=
  C10_arbitrary_status dbW10 1 ⟨1, 1, 10, 14, none, "PENDING"⟩ "WITHDRAWN"
    (by decide) (by decide) (by decide)
